import Mathlib

/-!
Verification of the 2048 game logic implemented in `src/App.tsx`.

The board is a list of rows of naturals (`type Board = number[][]`),
with `GRID_SIZE = 4`.  The game operations are embedded below as
executable Lean functions, translated from the TypeScript source:
`slideRowLeft`, `rotateBoard`, `move`, `addRandomTile`, `isGameOver`,
and the keyboard/touch dispatch logic.  Randomness (`Math.random`) is
modelled by explicit parameters: `pick` selects the empty cell
(`pick % length` for `Math.floor(Math.random() * length)`) and `four`
tells whether the spawned tile is a 4 (the `Math.random() < 0.9 ? 2 : 4`
coin).
-/

namespace Game2048

/-- Source constant `GRID_SIZE = 4`. -/
def GRID_SIZE : Nat := 4

/-- Source type `Board = number[][]`. -/
abbrev Board := List (List Nat)

/-- Reading `b[i][j]`; out-of-range reads default to `0`. -/
def getCell (b : Board) (i j : Nat) : Nat := (b.getD i []).getD j 0

/-- Writing `b[i][j] = v` (no-op out of range, like `List.set`). -/
def setCell (b : Board) (i j v : Nat) : Board :=
  b.set i ((b.getD i []).set j v)

/-- Source `createEmptyBoard()`: a 4×4 board of zeros. -/
def createEmptyBoard : Board := List.replicate GRID_SIZE (List.replicate GRID_SIZE 0)

/-- The merging loop of `slideRowLeft`: scan the zero-filtered row `f`
from index `i`; when two consecutive entries are equal, push their
doubled value, add it to the score and skip the second entry (`i++`
inside the loop body). -/
def slideLoop (f : List Nat) (i : Nat) : List Nat × Nat :=
  if _h : i < f.length then
    if i + 1 < f.length ∧ f.getD i 0 = f.getD (i + 1) 0 then
      let m := f.getD i 0 * 2
      let p := slideLoop f (i + 2)
      (m :: p.1, m + p.2)
    else
      let p := slideLoop f (i + 1)
      (f.getD i 0 :: p.1, p.2)
  else ([], 0)
termination_by f.length - i
decreasing_by all_goals omega

/-- Source loop `while (newRow.length < GRID_SIZE) newRow.push(0)`. -/
def padTo (n : Nat) (l : List Nat) : List Nat := l ++ List.replicate (n - l.length) 0

/-- Source `slideRowLeft`: remove zeros, merge consecutive equal pairs left to
right, pad with zeros on the right to `GRID_SIZE`; also returns the
merged score of the row. -/
def slideRowLeft (row : List Nat) : List Nat × Nat :=
  let f := row.filter (fun v => decide (v ≠ 0))
  let p := slideLoop f 0
  (padTo GRID_SIZE p.1, p.2)

/-- Source `rotateBoard`: `newBoard[i][j] = currentBoard[GRID_SIZE-1-j][i]`,
unrolled for the fixed `GRID_SIZE = 4`. -/
def rotateBoard (b : Board) : Board :=
  [ [getCell b 3 0, getCell b 2 0, getCell b 1 0, getCell b 0 0],
    [getCell b 3 1, getCell b 2 1, getCell b 1 1, getCell b 0 1],
    [getCell b 3 2, getCell b 2 2, getCell b 1 2, getCell b 0 2],
    [getCell b 3 3, getCell b 2 3, getCell b 1 3, getCell b 0 3] ]

/-- Source loop `for (let i = 0; i < rotations; i++) tempBoard = rotateBoard(tempBoard)`. -/
def rotN : Nat → Board → Board
  | 0, b => b
  | n + 1, b => rotN n (rotateBoard b)

/-- The restore loop of `move`:
`for (let i = 0; i < rotations; i++) tempBoard = rotateBoard(rotateBoard(rotateBoard(tempBoard)))`. -/
def unrotate : Nat → Board → Board
  | 0, b => b
  | n + 1, b => unrotate n (rotateBoard (rotateBoard (rotateBoard b)))

/-- The row loop of `move`: `tempBoard[i] = slideRowLeft(tempBoard[i]).newRow`
for `i = 0..3`, accumulating `totalMergedScore`. -/
def slideBoardLeft (b : Board) : Board × Nat :=
  let p0 := slideRowLeft (b.getD 0 [])
  let b0 := b.set 0 p0.1
  let p1 := slideRowLeft (b0.getD 1 [])
  let b1 := b0.set 1 p1.1
  let p2 := slideRowLeft (b1.getD 2 [])
  let b2 := b1.set 2 p2.1
  let p3 := slideRowLeft (b2.getD 3 [])
  let b3 := b2.set 3 p3.1
  (b3, p0.2 + p1.2 + p2.2 + p3.2)

/-- The four move directions. -/
inductive Dir
  | up
  | down
  | left
  | right
deriving DecidableEq

/-- Rotation counts of `move`: `if (direction === 'up') rotations = 1;` etc. -/
def rotationsFor : Dir → Nat
  | .left => 0
  | .up => 1
  | .right => 2
  | .down => 3

/-- The pure part of `move`: rotate `k` times, slide each row left, then
run the restore loop (`3·k` single rotations); returns the pre-spawn
board together with `totalMergedScore`. -/
def movePre (b : Board) (d : Dir) : Board × Nat :=
  let k := rotationsFor d
  let p := slideBoardLeft (rotN k b)
  (unrotate k p.1, p.2)

/-- The empty-cell list of `addRandomTile`, in row-major order. -/
def emptyCells (b : Board) : List (Nat × Nat) :=
  (List.range GRID_SIZE).flatMap (fun i =>
    (List.range GRID_SIZE).filterMap (fun j =>
      if getCell b i j = 0 then some (i, j) else none))

/-- Source `addRandomTile`: if an empty cell exists, place a 2 (or a 4 when
`four` is set) on the cell indexed by `pick % length` in the empty-cell
list; otherwise return the board unchanged. -/
def addRandomTile (b : Board) (pick : Nat) (four : Bool) : Board :=
  let e := emptyCells b
  if e.length = 0 then b
  else
    let c := e.getD (pick % e.length) (0, 0)
    setCell b c.1 c.2 (if four then 4 else 2)

/-- Source `isGameOver`: false as soon as some cell is `0` or equals its right
or down neighbour; true otherwise. -/
def isGameOver (b : Board) : Bool :=
  (List.range GRID_SIZE).all fun i =>
    (List.range GRID_SIZE).all fun j =>
      !(getCell b i j == 0)
      && !(decide (i < GRID_SIZE - 1) && (getCell b i j == getCell b (i + 1) j))
      && !(decide (j < GRID_SIZE - 1) && (getCell b i j == getCell b i (j + 1)))

/-- The board produced by one `move` call (ignoring score/gameOver):
spawn only when the slid board differs from the input board. -/
def moveBoard (b : Board) (d : Dir) (pick : Nat) (four : Bool) : Board :=
  let p := movePre b d
  if p.1 ≠ b then addRandomTile p.1 pick four else b

/-- The React state touched by `move`. -/
structure GameState where
  board : Board
  score : Nat
  gameOver : Bool
deriving DecidableEq

/-- One `move(direction)` call: early-return when `gameOver`; otherwise
slide, compare with the current board (`JSON.stringify` equality), and
only on a change spawn a tile, add the merged score, and run the
terminal check. -/
def moveStep (s : GameState) (d : Dir) (pick : Nat) (four : Bool) : GameState :=
  if s.gameOver then s
  else
    let p := movePre s.board d
    if p.1 ≠ s.board then
      let nb := addRandomTile p.1 pick four
      { board := nb, score := s.score + p.2, gameOver := isGameOver nb }
    else s

/-- Source `initGame`: empty board plus two random tiles. -/
def initBoard (p1 : Nat) (f1 : Bool) (p2 : Nat) (f2 : Bool) : Board :=
  addRandomTile (addRandomTile createEmptyBoard p1 f1) p2 f2

/-- Source `handleKeyDown`: the `switch (e.key)` dispatch. -/
def keyToMove (k : String) : Option Dir :=
  if k = "ArrowUp" then some .down
  else if k = "ArrowDown" then some .up
  else if k = "ArrowLeft" then some .left
  else if k = "ArrowRight" then some .right
  else none

/-- Source `handleTouchEnd`: swipe classification from the displacement
`(dx, dy)` of the touch (screen coordinates, `y` growing downward). -/
def touchToMove (dx dy : Int) : Option Dir :=
  let absDx := dx.natAbs
  let absDy := dy.natAbs
  if 30 < max absDx absDy then
    if absDy < absDx then some (if 0 < dx then Dir.right else Dir.left)
    else some (if 0 < dy then Dir.down else Dir.up)
  else none

/-- A sequence of `move` calls folded over the state. -/
def runMoves (s : GameState) (ms : List (Dir × Nat × Bool)) : GameState :=
  ms.foldl (fun t m => moveStep t m.1 m.2.1 m.2.2) s

/-- The score delta one `move` call contributes: zero when the game is
over or the move leaves the board unchanged. -/
def stepDelta (s : GameState) (d : Dir) : Nat :=
  if s.gameOver then 0
  else if (movePre s.board d).1 ≠ s.board then (movePre s.board d).2 else 0

/-- Sum of the per-move score deltas along a sequence of moves. -/
def sumDeltas : GameState → List (Dir × Nat × Bool) → Nat
  | _, [] => 0
  | s, m :: ms => stepDelta s m.1 + sumDeltas (moveStep s m.1 m.2.1 m.2.2) ms

/-- Spec description of the merging scan: merge each pair of consecutive
equal values into one doubled tile, accumulate the merged score, and
skip the second element of a merged pair, so a tile produced by a merge
never merges again in the same pass. -/
def mergePairs : List Nat → List Nat × Nat
  | [] => ([], 0)
  | [a] => ([a], 0)
  | a :: b :: rest =>
    if a = b then
      let p := mergePairs rest
      (a * 2 :: p.1, a * 2 + p.2)
    else
      let p := mergePairs (b :: rest)
      (a :: p.1, p.2)

/-- Number of merged pairs produced by the merging scan. -/
def mergeCount : List Nat → Nat
  | [] => 0
  | [_] => 0
  | a :: b :: rest => if a = b then mergeCount rest + 1 else mergeCount (b :: rest)

/-- Number of merged pairs produced by a whole move: sum over the rows of
the rotated board of the merge count of the zero-filtered row. -/
def mergedPairsCount (b : Board) (d : Dir) : Nat :=
  ((rotN (rotationsFor d) b).map
    (fun r => mergeCount (r.filter (fun v => decide (v ≠ 0))))).sum

/-- Number of non-zero entries of a row. -/
def rowNonzero (r : List Nat) : Nat := r.countP (fun v => decide (v ≠ 0))

/-- Number of non-zero cells of a board. -/
def nonzeroCount (b : Board) : Nat := (b.map rowNonzero).sum

/-- A legal cell value: `0` or a power of two that is at least `2`. -/
def validVal (v : Nat) : Prop := v = 0 ∨ ∃ n, 1 ≤ n ∧ v = 2 ^ n

/-- A well-formed row: length 4, all values legal. -/
def wfRow (r : List Nat) : Prop := r.length = GRID_SIZE ∧ ∀ v ∈ r, validVal v

/-- A board of the right shape: 4 rows of length 4. -/
def shapeWF (b : Board) : Prop := b.length = GRID_SIZE ∧ ∀ r ∈ b, r.length = GRID_SIZE

/-- A well-formed board: 4 well-formed rows. -/
def WF (b : Board) : Prop := b.length = GRID_SIZE ∧ ∀ r ∈ b, wfRow r

/-- The rotation-normalized composition described by the spec: apply
`k` rotations, slide every row left summing the per-row merged scores,
then apply `(4 − k) mod 4` rotations to restore orientation. -/
def moveSpec (b : Board) (d : Dir) : Board × Nat :=
  let k := rotationsFor d
  let rows := (rotN k b).map slideRowLeft
  (rotN ((4 - k) % 4) (rows.map Prod.fst), (rows.map Prod.snd).sum)

/-! ### The merging loop computes the pairwise merging scan -/

theorem slideLoop_eq_aux (f : List Nat) (n : Nat) :
    ∀ i, f.length - i ≤ n → slideLoop f i = mergePairs (f.drop i) := by
  induction n with
  | zero =>
    intro i h
    rw [slideLoop, dif_neg (by omega), List.drop_eq_nil_of_le (by omega)]
    rfl
  | succ n ih =>
    intro i h
    by_cases hi : i < f.length
    · have hdrop : f.drop i = f[i] :: f.drop (i + 1) := List.drop_eq_getElem_cons hi
      have e1 : f.getD i 0 = f[i] := List.getD_eq_getElem f 0 hi
      rw [slideLoop, dif_pos hi]
      by_cases h2 : i + 1 < f.length ∧ f.getD i 0 = f.getD (i + 1) 0
      · obtain ⟨h2a, h2b⟩ := h2
        have hdrop2 : f.drop (i + 1) = f[i + 1] :: f.drop (i + 2) :=
          List.drop_eq_getElem_cons h2a
        have e2 : f.getD (i + 1) 0 = f[i + 1] := List.getD_eq_getElem f 0 h2a
        have heq : f[i] = f[i + 1] := by rw [← e1, ← e2]; exact h2b
        rw [if_pos ⟨h2a, h2b⟩, ih (i + 2) (by omega), hdrop, hdrop2]
        simp only [mergePairs, ← heq, if_pos rfl, e1]
        simp
      · rw [if_neg h2, ih (i + 1) (by omega), hdrop]
        by_cases h3 : i + 1 < f.length
        · have h2b : ¬ f.getD i 0 = f.getD (i + 1) 0 := fun hc => h2 ⟨h3, hc⟩
          have hdrop2 : f.drop (i + 1) = f[i + 1] :: f.drop (i + 2) :=
            List.drop_eq_getElem_cons h3
          have e2 : f.getD (i + 1) 0 = f[i + 1] := List.getD_eq_getElem f 0 h3
          have hne : ¬ f[i] = f[i + 1] := by rw [← e1, ← e2]; exact h2b
          conv_rhs => rw [hdrop2]
          rw [hdrop2]
          simp only [mergePairs, if_neg hne, e1]
        · have hnil : f.drop (i + 1) = [] := List.drop_eq_nil_of_le (by omega)
          rw [hnil]
          simp only [mergePairs, e1]
    · rw [slideLoop, dif_neg hi, List.drop_eq_nil_of_le (by omega)]
      rfl

theorem slideLoop_eq (f : List Nat) (i : Nat) : slideLoop f i = mergePairs (f.drop i) :=
  slideLoop_eq_aux f (f.length - i) i (Nat.le_refl _)

theorem slideRowLeft_eq (row : List Nat) :
    slideRowLeft row =
      (padTo GRID_SIZE (mergePairs (row.filter (fun v => decide (v ≠ 0)))).1,
       (mergePairs (row.filter (fun v => decide (v ≠ 0)))).2) := by
  show (padTo GRID_SIZE (slideLoop (row.filter (fun v => decide (v ≠ 0))) 0).1,
        (slideLoop (row.filter (fun v => decide (v ≠ 0))) 0).2) = _
  rw [slideLoop_eq]
  simp

/-! ### Facts about the merging scan -/

theorem mergePairs_length (l : List Nat) :
    (mergePairs l).1.length + mergeCount l = l.length := by
  induction l using mergePairs.induct with
  | case1 => simp [mergePairs, mergeCount]
  | case2 a => simp [mergePairs, mergeCount]
  | case3 b rest ih => simp only [mergePairs, mergeCount, if_pos rfl]; simp; omega
  | case4 a b rest h ih =>
    simp only [mergePairs, mergeCount, if_neg h]
    simp at ih ⊢
    omega

theorem mergePairs_mem (l : List Nat) :
    ∀ y ∈ (mergePairs l).1, y ∈ l ∨ ∃ x ∈ l, y = x * 2 := by
  induction l using mergePairs.induct with
  | case1 => simp [mergePairs]
  | case2 a => simp [mergePairs]
  | case3 b rest ih =>
    simp only [mergePairs, if_pos rfl]
    intro y hy
    rcases List.mem_cons.mp hy with h | h
    · exact Or.inr ⟨b, by simp, h⟩
    · rcases ih y h with h1 | ⟨x, hx, hx2⟩
      · exact Or.inl (by simp [h1])
      · exact Or.inr ⟨x, by simp [hx], hx2⟩
  | case4 a b rest h ih =>
    simp only [mergePairs, if_neg h]
    intro y hy
    rcases List.mem_cons.mp hy with h1 | h1
    · exact Or.inl (by simp [h1])
    · rcases ih y h1 with h2 | ⟨x, hx, hx2⟩
      · exact Or.inl (List.mem_cons_of_mem _ h2)
      · exact Or.inr ⟨x, List.mem_cons_of_mem _ hx, hx2⟩

theorem mergePairs_ne_zero (l : List Nat) (h : ∀ x ∈ l, x ≠ 0) :
    ∀ y ∈ (mergePairs l).1, y ≠ 0 := by
  intro y hy
  rcases mergePairs_mem l y hy with h1 | ⟨x, hx, hx2⟩
  · exact h y h1
  · have := h x hx
    omega

theorem mergeCount_eq_zero (l : List Nat) (h : mergeCount l = 0) : mergePairs l = (l, 0) := by
  induction l using mergePairs.induct with
  | case1 => simp [mergePairs]
  | case2 a => simp [mergePairs]
  | case3 b rest ih => simp [mergeCount] at h
  | case4 a b rest hne ih =>
    simp only [mergeCount, if_neg hne] at h
    simp only [mergePairs, if_neg hne, ih h]

/-! ### Facts about padding and row counts -/

theorem padTo_length (n : Nat) (l : List Nat) : (padTo n l).length = max n l.length := by
  simp [padTo]
  omega

theorem rowNonzero_padTo (n : Nat) (l : List Nat) : rowNonzero (padTo n l) = rowNonzero l := by
  simp [padTo, rowNonzero, List.countP_append, List.countP_replicate]

theorem rowNonzero_eq_filter_length (r : List Nat) :
    rowNonzero r = (r.filter (fun v => decide (v ≠ 0))).length := by
  simp [rowNonzero, List.countP_eq_length_filter]

theorem rowNonzero_le (r : List Nat) : rowNonzero r ≤ r.length :=
  List.countP_le_length _

theorem rowNonzero_eq_length (r : List Nat) (h : ∀ x ∈ r, x ≠ 0) :
    rowNonzero r = r.length := by
  rw [rowNonzero, List.countP_eq_length]
  intro a ha
  simp [h a ha]

/-! ### Facts about `slideRowLeft` -/

theorem slideRow_length (row : List Nat) (h : row.length ≤ GRID_SIZE) :
    (slideRowLeft row).1.length = GRID_SIZE := by
  have h1 : (row.filter (fun v => decide (v ≠ 0))).length ≤ row.length :=
    List.length_filter_le _ _
  have h2 := mergePairs_length (row.filter (fun v => decide (v ≠ 0)))
  rw [slideRowLeft_eq]
  show (padTo GRID_SIZE (mergePairs (row.filter (fun v => decide (v ≠ 0)))).1).length
    = GRID_SIZE
  rw [padTo_length]
  omega

theorem slideRow_nonzero (row : List Nat) :
    rowNonzero (slideRowLeft row).1 + mergeCount (row.filter (fun v => decide (v ≠ 0)))
      = rowNonzero row := by
  rw [slideRowLeft_eq]
  simp only [rowNonzero_padTo]
  have hnz : ∀ x ∈ row.filter (fun v => decide (v ≠ 0)), x ≠ 0 := by
    intro x hx
    have := List.of_mem_filter hx
    simpa using this
  have h1 : rowNonzero (mergePairs (row.filter (fun v => decide (v ≠ 0)))).1
      = (mergePairs (row.filter (fun v => decide (v ≠ 0)))).1.length :=
    rowNonzero_eq_length _ (mergePairs_ne_zero _ hnz)
  rw [h1, rowNonzero_eq_filter_length, mergePairs_length]

theorem slideRow_id (row : List Nat) (hlen : row.length = GRID_SIZE)
    (hnz : ∀ x ∈ row, x ≠ 0) (hmc : mergeCount row = 0) :
    (slideRowLeft row).1 = row := by
  rw [slideRowLeft_eq]
  have hf : row.filter (fun v => decide (v ≠ 0)) = row := by
    rw [List.filter_eq_self]
    intro a ha
    simp [hnz a ha]
  rw [hf, mergeCount_eq_zero row hmc]
  simp [padTo, hlen]

/-! ### Board shape and rotation -/

theorem len4_decomp {α : Type} (l : List α) (h : l.length = 4) :
    ∃ a b c d, l = [a, b, c, d] := by
  rcases l with _ | ⟨a, l⟩
  · simp at h
  rcases l with _ | ⟨b, l⟩
  · simp at h
  rcases l with _ | ⟨c, l⟩
  · simp at h
  rcases l with _ | ⟨d, l⟩
  · simp at h
  rcases l with _ | ⟨e, l⟩
  · exact ⟨a, b, c, d, rfl⟩
  · simp at h

theorem shapeWF_decomp (bd : Board) (h : shapeWF bd) :
    ∃ r0 r1 r2 r3 : List Nat, bd = [r0, r1, r2, r3] ∧
      r0.length = 4 ∧ r1.length = 4 ∧ r2.length = 4 ∧ r3.length = 4 := by
  obtain ⟨hl, hr⟩ := h
  obtain ⟨r0, r1, r2, r3, rfl⟩ := len4_decomp bd hl
  exact ⟨r0, r1, r2, r3, rfl,
    hr r0 (by simp), hr r1 (by simp), hr r2 (by simp), hr r3 (by simp)⟩

theorem cell_decomp (bd : Board) (h : shapeWF bd) :
    ∃ x00 x01 x02 x03 x10 x11 x12 x13 x20 x21 x22 x23 x30 x31 x32 x33 : Nat,
      bd = [[x00, x01, x02, x03], [x10, x11, x12, x13],
            [x20, x21, x22, x23], [x30, x31, x32, x33]] := by
  obtain ⟨r0, r1, r2, r3, rfl, h0, h1, h2, h3⟩ := shapeWF_decomp bd h
  obtain ⟨a0, a1, a2, a3, rfl⟩ := len4_decomp r0 h0
  obtain ⟨b0, b1, b2, b3, rfl⟩ := len4_decomp r1 h1
  obtain ⟨c0, c1, c2, c3, rfl⟩ := len4_decomp r2 h2
  obtain ⟨d0, d1, d2, d3, rfl⟩ := len4_decomp r3 h3
  exact ⟨a0, a1, a2, a3, b0, b1, b2, b3, c0, c1, c2, c3, d0, d1, d2, d3, rfl⟩

theorem rotateBoard_shape (bd : Board) : shapeWF (rotateBoard bd) := by
  refine ⟨rfl, ?_⟩
  intro r hr
  simp only [rotateBoard, List.mem_cons, List.not_mem_nil, or_false] at hr
  rcases hr with rfl | rfl | rfl | rfl <;> rfl

theorem rotateBoard_four (bd : Board) (h : shapeWF bd) :
    rotateBoard (rotateBoard (rotateBoard (rotateBoard bd))) = bd := by
  obtain ⟨x00, x01, x02, x03, x10, x11, x12, x13,
          x20, x21, x22, x23, x30, x31, x32, x33, rfl⟩ := cell_decomp bd h
  rfl

theorem rotateBoard_nonzero (bd : Board) (h : shapeWF bd) :
    nonzeroCount (rotateBoard bd) = nonzeroCount bd := by
  obtain ⟨x00, x01, x02, x03, x10, x11, x12, x13,
          x20, x21, x22, x23, x30, x31, x32, x33, rfl⟩ := cell_decomp bd h
  simp only [nonzeroCount, rotateBoard, getCell, rowNonzero, List.map_cons, List.map_nil,
    List.countP_cons, List.countP_nil, List.getD_cons_zero, List.getD_cons_succ,
    List.sum_cons, List.sum_nil]
  omega

theorem rotN_add (m n : Nat) (bd : Board) : rotN (m + n) bd = rotN n (rotN m bd) := by
  induction m generalizing bd with
  | zero => rw [Nat.zero_add]; rfl
  | succ m ih =>
    have h1 : m + 1 + n = (m + n) + 1 := by omega
    rw [h1]
    show rotN (m + n) (rotateBoard bd) = _
    rw [ih]
    rfl

theorem unrotate_eq (k : Nat) (bd : Board) : unrotate k bd = rotN (3 * k) bd := by
  induction k generalizing bd with
  | zero => rfl
  | succ k ih =>
    show unrotate k (rotateBoard (rotateBoard (rotateBoard bd))) = _
    rw [ih]
    have h1 : 3 * (k + 1) = 3 + 3 * k := by ring
    rw [h1, rotN_add]
    rfl

theorem rotN_shape (k : Nat) (bd : Board) (h : shapeWF bd) : shapeWF (rotN k bd) := by
  induction k generalizing bd with
  | zero => exact h
  | succ k ih => exact ih (rotateBoard bd) (rotateBoard_shape bd)

theorem rotN_four_id (k : Nat) (bd : Board) (h : shapeWF bd) : rotN (4 * k) bd = bd := by
  induction k with
  | zero => rfl
  | succ k ih =>
    have h1 : 4 * (k + 1) = 4 + 4 * k := by ring
    rw [h1, rotN_add]
    have h2 : rotN 4 bd = bd := rotateBoard_four bd h
    rw [h2, ih]

theorem rotN_nonzero (k : Nat) (bd : Board) (h : shapeWF bd) :
    nonzeroCount (rotN k bd) = nonzeroCount bd := by
  induction k generalizing bd with
  | zero => rfl
  | succ k ih =>
    show nonzeroCount (rotN k (rotateBoard bd)) = _
    rw [ih (rotateBoard bd) (rotateBoard_shape bd), rotateBoard_nonzero bd h]

/-! ### Value validity -/

theorem validVal_zero : validVal 0 := Or.inl rfl

theorem validVal_two : validVal 2 := Or.inr ⟨1, Nat.le_refl 1, rfl⟩

theorem validVal_four : validVal 4 := Or.inr ⟨2, by omega, rfl⟩

theorem validVal_double (v : Nat) (h : validVal v) : validVal (v * 2) := by
  rcases h with rfl | ⟨n, hn, rfl⟩
  · exact Or.inl rfl
  · exact Or.inr ⟨n + 1, by omega, by rw [pow_succ]⟩

theorem wf_shape (bd : Board) (h : WF bd) : shapeWF bd :=
  ⟨h.1, fun r hr => (h.2 r hr).1⟩

theorem getCell_valid (bd : Board) (h : WF bd) (i j : Nat) : validVal (getCell bd i j) := by
  unfold getCell
  by_cases hi : i < bd.length
  · rw [List.getD_eq_getElem bd [] hi]
    obtain ⟨hlen, hvals⟩ := h.2 bd[i] (List.getElem_mem hi)
    by_cases hj : j < bd[i].length
    · rw [List.getD_eq_getElem _ 0 hj]
      exact hvals _ (List.getElem_mem hj)
    · rw [List.getD_eq_default _ 0 (by omega)]
      exact validVal_zero
  · rw [List.getD_eq_default bd [] (by omega)]
    exact validVal_zero

theorem rotateBoard_wf (bd : Board) (h : WF bd) : WF (rotateBoard bd) := by
  refine ⟨rfl, ?_⟩
  intro r hr
  simp only [rotateBoard, List.mem_cons, List.not_mem_nil, or_false] at hr
  rcases hr with rfl | rfl | rfl | rfl <;>
    refine ⟨rfl, ?_⟩ <;>
    · intro v hv
      simp only [List.mem_cons, List.not_mem_nil, or_false] at hv
      rcases hv with rfl | rfl | rfl | rfl <;> exact getCell_valid bd h _ _

theorem rotN_wf (k : Nat) (bd : Board) (h : WF bd) : WF (rotN k bd) := by
  induction k generalizing bd with
  | zero => exact h
  | succ k ih => exact ih (rotateBoard bd) (rotateBoard_wf bd h)

/-! ### The row loop of `move` on a 4-row board -/

theorem slideBoardLeft_eq (r0 r1 r2 r3 : List Nat) :
    slideBoardLeft [r0, r1, r2, r3] =
      ([(slideRowLeft r0).1, (slideRowLeft r1).1, (slideRowLeft r2).1, (slideRowLeft r3).1],
       (slideRowLeft r0).2 + (slideRowLeft r1).2 + (slideRowLeft r2).2 + (slideRowLeft r3).2) :=
  rfl

theorem wfRow_slide (r : List Nat) (h : wfRow r) : wfRow (slideRowLeft r).1 := by
  obtain ⟨hlen, hvals⟩ := h
  refine ⟨slideRow_length r (by omega), ?_⟩
  rw [slideRowLeft_eq]
  intro v hv
  rw [show (padTo GRID_SIZE (mergePairs (r.filter (fun v => decide (v ≠ 0)))).1,
    (mergePairs (r.filter (fun v => decide (v ≠ 0)))).2).1
    = padTo GRID_SIZE (mergePairs (r.filter (fun v => decide (v ≠ 0)))).1 from rfl,
    padTo, List.mem_append] at hv
  rcases hv with hv | hv
  · rcases mergePairs_mem _ v hv with h1 | ⟨x, hx, rfl⟩
    · exact hvals v (List.mem_of_mem_filter h1)
    · exact validVal_double x (hvals x (List.mem_of_mem_filter hx))
  · rw [List.eq_of_mem_replicate hv]
    exact validVal_zero

theorem slideBoard_shape (bd : Board) (h : shapeWF bd) : shapeWF (slideBoardLeft bd).1 := by
  obtain ⟨r0, r1, r2, r3, rfl, h0, h1, h2, h3⟩ := shapeWF_decomp bd h
  rw [slideBoardLeft_eq]
  refine ⟨rfl, ?_⟩
  intro r hr
  simp only [List.mem_cons, List.not_mem_nil, or_false] at hr
  rcases hr with rfl | rfl | rfl | rfl <;> exact slideRow_length _ (by simp only [GRID_SIZE]; omega)

theorem slideBoard_wf (bd : Board) (h : WF bd) : WF (slideBoardLeft bd).1 := by
  have hs := wf_shape bd h
  obtain ⟨r0, r1, r2, r3, rfl, h0, h1, h2, h3⟩ := shapeWF_decomp bd hs
  rw [slideBoardLeft_eq]
  refine ⟨rfl, ?_⟩
  intro r hr
  simp only [List.mem_cons, List.not_mem_nil, or_false] at hr
  rcases hr with rfl | rfl | rfl | rfl <;> exact wfRow_slide _ (h.2 _ (by simp))

theorem slideBoard_nonzero (bd : Board) (h : shapeWF bd) :
    nonzeroCount (slideBoardLeft bd).1 +
      (bd.map (fun r => mergeCount (r.filter (fun v => decide (v ≠ 0))))).sum
      = nonzeroCount bd := by
  obtain ⟨r0, r1, r2, r3, rfl, h0, h1, h2, h3⟩ := shapeWF_decomp bd h
  rw [slideBoardLeft_eq]
  simp only [nonzeroCount, List.map_cons, List.map_nil, List.sum_cons, List.sum_nil]
  have e0 := slideRow_nonzero r0
  have e1 := slideRow_nonzero r1
  have e2 := slideRow_nonzero r2
  have e3 := slideRow_nonzero r3
  omega

theorem slideBoard_id (bd : Board) (h : shapeWF bd)
    (hnz : ∀ r ∈ bd, ∀ x ∈ r, x ≠ 0)
    (hmc : ∀ r ∈ bd, mergeCount (r.filter (fun v => decide (v ≠ 0))) = 0) :
    (slideBoardLeft bd).1 = bd := by
  obtain ⟨r0, r1, r2, r3, rfl, h0, h1, h2, h3⟩ := shapeWF_decomp bd h
  rw [slideBoardLeft_eq]
  have key : ∀ r : List Nat, r ∈ [r0, r1, r2, r3] → r.length = 4 →
      (slideRowLeft r).1 = r := by
    intro r hr hlen
    have hfil : r.filter (fun v => decide (v ≠ 0)) = r := by
      rw [List.filter_eq_self]
      intro a ha
      simp [hnz r hr a ha]
    apply slideRow_id r hlen (hnz r hr)
    rw [← hfil]
    exact hmc r hr
  rw [key r0 (by simp) h0, key r1 (by simp) h1, key r2 (by simp) h2, key r3 (by simp) h3]

/-! ### Empty cells, `setCell`, `addRandomTile` -/

theorem mem_emptyCells (bd : Board) (i j : Nat) :
    (i, j) ∈ emptyCells bd ↔ i < GRID_SIZE ∧ j < GRID_SIZE ∧ getCell bd i j = 0 := by
  simp only [emptyCells, List.mem_flatMap, List.mem_filterMap, List.mem_range]
  constructor
  · rintro ⟨a, ha, b, hb, hab⟩
    by_cases h0 : getCell bd a b = 0
    · rw [if_pos h0] at hab
      simp only [Option.some.injEq, Prod.mk.injEq] at hab
      obtain ⟨rfl, rfl⟩ := hab
      exact ⟨ha, hb, h0⟩
    · rw [if_neg h0] at hab
      cases hab
  · rintro ⟨hi, hj, h0⟩
    exact ⟨i, hi, j, hj, by rw [if_pos h0]⟩

theorem emptyCells_nil (bd : Board) :
    emptyCells bd = [] ↔ ∀ i j, i < GRID_SIZE → j < GRID_SIZE → getCell bd i j ≠ 0 := by
  rw [List.eq_nil_iff_forall_not_mem]
  constructor
  · intro h i j hi hj h0
    exact h (i, j) ((mem_emptyCells bd i j).mpr ⟨hi, hj, h0⟩)
  · rintro h ⟨i, j⟩ hm
    obtain ⟨hi, hj, h0⟩ := (mem_emptyCells bd i j).mp hm
    exact h i j hi hj h0

theorem rowNonzero_set (r : List Nat) (j v : Nat) (hj : j < r.length)
    (h0 : r.getD j 0 = 0) (hv : v ≠ 0) :
    rowNonzero (r.set j v) = rowNonzero r + 1 := by
  induction r generalizing j with
  | nil => simp at hj
  | cons a t ih =>
    cases j with
    | zero =>
      rw [List.getD_cons_zero] at h0
      subst h0
      simp [rowNonzero, List.countP_cons, hv]
    | succ j =>
      rw [List.getD_cons_succ] at h0
      have := ih j (by simpa using hj) h0
      simp only [List.set, rowNonzero, List.countP_cons] at this ⊢
      omega

theorem nonzeroCount_set (bd : Board) (i : Nat) (r2 : List Nat) (hi : i < bd.length) :
    nonzeroCount (bd.set i r2) + rowNonzero (bd.getD i [])
      = nonzeroCount bd + rowNonzero r2 := by
  induction bd generalizing i with
  | nil => simp at hi
  | cons r t ih =>
    cases i with
    | zero =>
      simp only [List.set, List.getD_cons_zero, nonzeroCount, List.map_cons, List.sum_cons]
      omega
    | succ i =>
      have := ih i (by simpa using hi)
      simp only [List.set, List.getD_cons_succ, nonzeroCount, List.map_cons,
        List.sum_cons] at this ⊢
      omega

theorem setCell_nonzeroCount (bd : Board) (h : shapeWF bd) (i j v : Nat)
    (hi : i < GRID_SIZE) (hj : j < GRID_SIZE) (h0 : getCell bd i j = 0) (hv : v ≠ 0) :
    nonzeroCount (setCell bd i j v) = nonzeroCount bd + 1 := by
  have hib : i < bd.length := by rw [h.1]; exact hi
  have hrow : (bd.getD i []).length = GRID_SIZE := by
    rw [List.getD_eq_getElem bd [] hib]
    exact h.2 _ (List.getElem_mem hib)
  have h1 := nonzeroCount_set bd i ((bd.getD i []).set j v) hib
  have h2 := rowNonzero_set (bd.getD i []) j v (by omega) h0 hv
  unfold setCell
  omega

theorem setCell_wf (bd : Board) (h : WF bd) (i j v : Nat) (hvv : validVal v) :
    WF (setCell bd i j v) := by
  by_cases hib : i < bd.length
  · refine ⟨by rw [setCell, List.length_set]; exact h.1, ?_⟩
    intro r hr
    rcases List.mem_or_eq_of_mem_set hr with hr | rfl
    · exact h.2 r hr
    · have hrow : wfRow (bd.getD i []) := by
        rw [List.getD_eq_getElem bd [] hib]
        exact h.2 _ (List.getElem_mem hib)
      refine ⟨by rw [List.length_set]; exact hrow.1, ?_⟩
      intro x hx
      rcases List.mem_or_eq_of_mem_set hx with hx | rfl
      · exact hrow.2 x hx
      · exact hvv
  · rw [setCell, List.set_eq_of_length_le (by omega)]
    exact h

theorem addRandomTile_full (bd : Board) (pick : Nat) (four : Bool)
    (h : emptyCells bd = []) : addRandomTile bd pick four = bd := by
  unfold addRandomTile
  rw [if_pos (by rw [h]; rfl)]

theorem addRandomTile_spawn (bd : Board) (pick : Nat) (four : Bool)
    (h : emptyCells bd ≠ []) :
    ∃ i j, i < GRID_SIZE ∧ j < GRID_SIZE ∧ getCell bd i j = 0 ∧
      addRandomTile bd pick four = setCell bd i j (if four then 4 else 2) := by
  have hlen : 0 < (emptyCells bd).length := List.length_pos.mpr h
  have hmod : pick % (emptyCells bd).length < (emptyCells bd).length :=
    Nat.mod_lt _ hlen
  rcases hcc : (emptyCells bd).getD (pick % (emptyCells bd).length) (0, 0) with ⟨i, j⟩
  have hmem : (i, j) ∈ emptyCells bd := by
    rw [← hcc, List.getD_eq_getElem _ _ hmod]
    exact List.getElem_mem hmod
  obtain ⟨hi, hj, h0⟩ := (mem_emptyCells bd i j).mp hmem
  refine ⟨i, j, hi, hj, h0, ?_⟩
  unfold addRandomTile
  rw [if_neg (by omega), hcc]

theorem addRandomTile_wf (bd : Board) (h : WF bd) (pick : Nat) (four : Bool) :
    WF (addRandomTile bd pick four) := by
  unfold addRandomTile
  by_cases hc : (emptyCells bd).length = 0
  · rw [if_pos hc]
    exact h
  · rw [if_neg hc]
    apply setCell_wf bd h
    cases four
    · exact validVal_two
    · exact validVal_four

/-! ### Facts about `movePre` -/

theorem movePre_fst (bd : Board) (d : Dir) :
    (movePre bd d).1 = unrotate (rotationsFor d) (slideBoardLeft (rotN (rotationsFor d) bd)).1 :=
  rfl

theorem movePre_snd (bd : Board) (d : Dir) :
    (movePre bd d).2 = (slideBoardLeft (rotN (rotationsFor d) bd)).2 :=
  rfl

theorem movePre_wf (bd : Board) (d : Dir) (h : WF bd) : WF (movePre bd d).1 := by
  rw [movePre_fst, unrotate_eq]
  exact rotN_wf _ _ (slideBoard_wf _ (rotN_wf _ _ h))

theorem movePre_nonzero (bd : Board) (d : Dir) (h : shapeWF bd) :
    nonzeroCount (movePre bd d).1 + mergedPairsCount bd d = nonzeroCount bd := by
  have h1 : shapeWF (rotN (rotationsFor d) bd) := rotN_shape _ _ h
  have h2 := slideBoard_nonzero _ h1
  have h3 : shapeWF (slideBoardLeft (rotN (rotationsFor d) bd)).1 := slideBoard_shape _ h1
  rw [movePre_fst, unrotate_eq, rotN_nonzero _ _ h3]
  rw [rotN_nonzero _ _ h] at h2
  unfold mergedPairsCount
  omega

theorem nonzeroCount_le16 (c : Board) (h : shapeWF c) : nonzeroCount c ≤ 16 := by
  obtain ⟨r0, r1, r2, r3, rfl, h0, h1, h2, h3⟩ := shapeWF_decomp c h
  have l0 := rowNonzero_le r0
  have l1 := rowNonzero_le r1
  have l2 := rowNonzero_le r2
  have l3 := rowNonzero_le r3
  simp only [nonzeroCount, List.map_cons, List.map_nil, List.sum_cons, List.sum_nil]
  omega

theorem full_rows (c : Board) (h : shapeWF c) (hf : nonzeroCount c = 16) :
    ∀ r ∈ c, ∀ x ∈ r, x ≠ 0 := by
  obtain ⟨r0, r1, r2, r3, rfl, h0, h1, h2, h3⟩ := shapeWF_decomp c h
  have l0 := rowNonzero_le r0
  have l1 := rowNonzero_le r1
  have l2 := rowNonzero_le r2
  have l3 := rowNonzero_le r3
  simp only [nonzeroCount, List.map_cons, List.map_nil, List.sum_cons, List.sum_nil] at hf
  have key : ∀ r : List Nat, r.length = 4 → rowNonzero r = 4 → ∀ x ∈ r, x ≠ 0 := by
    intro r hlen hcnt x hx
    have hc : List.countP (fun v => decide (v ≠ 0)) r = r.length := by
      rw [hlen]
      exact hcnt
    have := List.countP_eq_length.mp hc x hx
    simpa using this
  intro r hr
  simp only [List.mem_cons, List.not_mem_nil, or_false] at hr
  rcases hr with rfl | rfl | rfl | rfl
  · exact key r (by omega) (by omega)
  · exact key r (by omega) (by omega)
  · exact key r (by omega) (by omega)
  · exact key r (by omega) (by omega)

theorem nonzeroCount_full (c : Board) (h : shapeWF c)
    (hf : ∀ i j, i < GRID_SIZE → j < GRID_SIZE → getCell c i j ≠ 0) :
    nonzeroCount c = 16 := by
  obtain ⟨x00, x01, x02, x03, x10, x11, x12, x13,
          x20, x21, x22, x23, x30, x31, x32, x33, rfl⟩ := cell_decomp c h
  have h00 : x00 ≠ 0 := hf 0 0 (by decide) (by decide)
  have h01 : x01 ≠ 0 := hf 0 1 (by decide) (by decide)
  have h02 : x02 ≠ 0 := hf 0 2 (by decide) (by decide)
  have h03 : x03 ≠ 0 := hf 0 3 (by decide) (by decide)
  have h10 : x10 ≠ 0 := hf 1 0 (by decide) (by decide)
  have h11 : x11 ≠ 0 := hf 1 1 (by decide) (by decide)
  have h12 : x12 ≠ 0 := hf 1 2 (by decide) (by decide)
  have h13 : x13 ≠ 0 := hf 1 3 (by decide) (by decide)
  have h20 : x20 ≠ 0 := hf 2 0 (by decide) (by decide)
  have h21 : x21 ≠ 0 := hf 2 1 (by decide) (by decide)
  have h22 : x22 ≠ 0 := hf 2 2 (by decide) (by decide)
  have h23 : x23 ≠ 0 := hf 2 3 (by decide) (by decide)
  have h30 : x30 ≠ 0 := hf 3 0 (by decide) (by decide)
  have h31 : x31 ≠ 0 := hf 3 1 (by decide) (by decide)
  have h32 : x32 ≠ 0 := hf 3 2 (by decide) (by decide)
  have h33 : x33 ≠ 0 := hf 3 3 (by decide) (by decide)
  simp [nonzeroCount, rowNonzero, List.countP_cons,
    h00, h01, h02, h03, h10, h11, h12, h13, h20, h21, h22, h23, h30, h31, h32, h33]

theorem movePre_full_id (bd : Board) (d : Dir) (h : shapeWF bd)
    (hfull : nonzeroCount bd = 16) (hmc : mergedPairsCount bd d = 0) :
    (movePre bd d).1 = bd := by
  have h1 : shapeWF (rotN (rotationsFor d) bd) := rotN_shape _ _ h
  have hfull2 : nonzeroCount (rotN (rotationsFor d) bd) = 16 := by
    rw [rotN_nonzero _ _ h]
    exact hfull
  have hnz := full_rows _ h1 hfull2
  have hmc2 : ∀ r ∈ rotN (rotationsFor d) bd,
      mergeCount (r.filter (fun v => decide (v ≠ 0))) = 0 := by
    unfold mergedPairsCount at hmc
    obtain ⟨r0, r1, r2, r3, hEq, g0, g1, g2, g3⟩ := shapeWF_decomp _ h1
    rw [hEq] at hmc ⊢
    simp only [List.map_cons, List.map_nil, List.sum_cons, List.sum_nil] at hmc
    intro r hr
    simp only [List.mem_cons, List.not_mem_nil, or_false] at hr
    rcases hr with rfl | rfl | rfl | rfl <;> omega
  have hid := slideBoard_id _ h1 hnz hmc2
  rw [movePre_fst, hid, unrotate_eq, ← rotN_add]
  have h4 : rotationsFor d + 3 * rotationsFor d = 4 * rotationsFor d := by ring
  rw [h4]
  exact rotN_four_id _ bd h

theorem movePre_changed_empty (bd : Board) (d : Dir) (h : WF bd)
    (hch : (movePre bd d).1 ≠ bd) : emptyCells (movePre bd d).1 ≠ [] := by
  intro hnil
  have hwf2 : WF (movePre bd d).1 := movePre_wf bd d h
  have hs2 : shapeWF (movePre bd d).1 := wf_shape _ hwf2
  have hfull := (emptyCells_nil (movePre bd d).1).mp hnil
  have h16 : nonzeroCount (movePre bd d).1 = 16 := nonzeroCount_full _ hs2 hfull
  have hnz := movePre_nonzero bd d (wf_shape bd h)
  have hle : nonzeroCount bd ≤ 16 := nonzeroCount_le16 bd (wf_shape bd h)
  have hb16 : nonzeroCount bd = 16 := by omega
  have hmc0 : mergedPairsCount bd d = 0 := by omega
  exact hch (movePre_full_id bd d (wf_shape bd h) hb16 hmc0)

/-! ### Glue lemmas for the refinement claim -/

theorem slideBoard_map (c : Board) (h : shapeWF c) :
    slideBoardLeft c =
      ((c.map slideRowLeft).map Prod.fst, ((c.map slideRowLeft).map Prod.snd).sum) := by
  obtain ⟨r0, r1, r2, r3, rfl, g0, g1, g2, g3⟩ := shapeWF_decomp c h
  rw [slideBoardLeft_eq]
  simp only [List.map_cons, List.map_nil, List.sum_cons, List.sum_nil]
  refine congrArg (Prod.mk _) ?_
  omega

theorem unrotate_norm (k : Nat) (hk : k ≤ 3) (x : Board) (hx : shapeWF x) :
    unrotate k x = rotN ((4 - k) % 4) x := by
  interval_cases k
  · rfl
  · rw [unrotate_eq]
  · rw [unrotate_eq]
    show rotN 6 x = rotN 2 x
    rw [show (6 : Nat) = 4 + 2 from rfl, rotN_add, rotN_four_id 1 x hx]
  · rw [unrotate_eq]
    show rotN 9 x = rotN 1 x
    rw [show (9 : Nat) = 8 + 1 from rfl, rotN_add, rotN_four_id 2 x hx]

/-! ### Example boards -/

/-- A well-formed board with one mergeable pair in the top row. -/
def demoBoard : Board := [[2, 2, 0, 0], [0, 0, 0, 0], [0, 0, 0, 0], [0, 0, 0, 0]]

/-- A board where a slide to the left changes nothing. -/
def noopBoard : Board := [[2, 0, 0, 0], [0, 0, 0, 0], [0, 0, 0, 0], [0, 0, 0, 0]]

/-- A full board with no two adjacent equal cells. -/
def fullB : Board :=
  [[2, 4, 8, 16], [32, 64, 128, 256], [512, 1024, 2, 4], [8, 16, 32, 64]]

theorem WF_empty : WF createEmptyBoard := by
  refine ⟨rfl, ?_⟩
  intro r hr
  rw [List.eq_of_mem_replicate hr]
  refine ⟨rfl, ?_⟩
  intro v hv
  rw [List.eq_of_mem_replicate hv]
  exact validVal_zero

theorem WF_demoBoard : WF demoBoard := by
  refine ⟨rfl, ?_⟩
  intro r hr
  simp only [demoBoard, List.mem_cons, List.not_mem_nil, or_false] at hr
  rcases hr with rfl | rfl | rfl | rfl <;> refine ⟨rfl, ?_⟩ <;> intro v hv <;>
    simp only [List.mem_cons, List.not_mem_nil, or_false] at hv <;>
    rcases hv with rfl | rfl | rfl | rfl <;>
    first
      | exact validVal_zero
      | exact validVal_two

theorem demo_changed : (movePre demoBoard Dir.left).1 ≠ demoBoard := by
  rw [movePre_fst]
  show (slideBoardLeft demoBoard).1 ≠ demoBoard
  rw [demoBoard, slideBoardLeft_eq]
  simp only [slideRowLeft_eq]
  decide

theorem noop_unchanged : (movePre noopBoard Dir.left).1 = noopBoard := by
  rw [movePre_fst]
  show (slideBoardLeft noopBoard).1 = noopBoard
  rw [noopBoard, slideBoardLeft_eq]
  simp only [slideRowLeft_eq]
  decide

theorem shapeWF_fullB : shapeWF fullB := ⟨rfl, by decide⟩

theorem fullB_full : ∀ i j, i < GRID_SIZE → j < GRID_SIZE → getCell fullB i j ≠ 0 := by
  intro i j hi hj
  simp only [GRID_SIZE] at hi hj
  interval_cases i <;> interval_cases j <;> decide

theorem wfRow_demo : wfRow [2, 0, 0, 0] := by
  refine ⟨rfl, ?_⟩
  intro v hv
  simp only [List.mem_cons, List.not_mem_nil, or_false] at hv
  rcases hv with rfl | rfl | rfl | rfl
  · exact validVal_two
  · exact validVal_zero
  · exact validVal_zero
  · exact validVal_zero

/-! ### Claims -/

/-- C1: `slideRowLeft` removes zeros preserving order, merges each pair of
consecutive equal values left to right into one doubled tile (adding the
merged value to the score and skipping the next element, so a merged tile
never merges again in the same pass), and pads the result on the right
with zeros to length `GRID_SIZE`; in particular `[2,2,2,2]` yields
`([4,4,0,0], 8)`, not `[8,0,0,0]`. -/
theorem C1_slide_merge_pad :
    (∀ row : List Nat,
      slideRowLeft row =
        (padTo GRID_SIZE (mergePairs (row.filter (fun v => decide (v ≠ 0)))).1,
         (mergePairs (row.filter (fun v => decide (v ≠ 0)))).2)) ∧
    (∀ row : List Nat, row.length = GRID_SIZE → (slideRowLeft row).1.length = GRID_SIZE) ∧
    slideRowLeft [2, 2, 2, 2] = ([4, 4, 0, 0], 8) := by
  refine ⟨slideRowLeft_eq, ?_, ?_⟩
  · intro row h
    exact slideRow_length row (by omega)
  · rw [slideRowLeft_eq]
    decide

/-- Witness for C1 at the concrete row `[2,2,2,2]`. -/
theorem C1_slide_merge_pad_witness :
    ([2, 2, 2, 2] : List Nat).length = GRID_SIZE ∧
      (slideRowLeft [2, 2, 2, 2]).1.length = GRID_SIZE :=
  ⟨rfl, C1_slide_merge_pad.2.1 [2, 2, 2, 2] rfl⟩

/-- C2: every directional move equals the rotation-normalized composition
of the slide-left operation: `k` rotations (0 left, 1 up, 2 right,
3 down), slide each row left summing the per-row score deltas, then
`(4 − k) mod 4` rotations to restore orientation. -/
theorem C2_move_rotation_normalized (bd : Board) (d : Dir) (h : WF bd) :
    movePre bd d = moveSpec bd d := by
  have hs := wf_shape bd h
  have hk : rotationsFor d ≤ 3 := by cases d <;> decide
  have hrot : shapeWF (rotN (rotationsFor d) bd) := rotN_shape _ _ hs
  have hslid : shapeWF (slideBoardLeft (rotN (rotationsFor d) bd)).1 :=
    slideBoard_shape _ hrot
  have hm := slideBoard_map _ hrot
  have hm1 : ((rotN (rotationsFor d) bd).map slideRowLeft).map Prod.fst
      = (slideBoardLeft (rotN (rotationsFor d) bd)).1 := by rw [hm]
  have hm2 : (((rotN (rotationsFor d) bd).map slideRowLeft).map Prod.snd).sum
      = (slideBoardLeft (rotN (rotationsFor d) bd)).2 := by rw [hm]
  show (unrotate (rotationsFor d) (slideBoardLeft (rotN (rotationsFor d) bd)).1,
        (slideBoardLeft (rotN (rotationsFor d) bd)).2)
      = (rotN ((4 - rotationsFor d) % 4)
          (((rotN (rotationsFor d) bd).map slideRowLeft).map Prod.fst),
         (((rotN (rotationsFor d) bd).map slideRowLeft).map Prod.snd).sum)
  rw [hm1, hm2, unrotate_norm _ hk _ hslid]

/-- Witness for C2 at a concrete well-formed board and direction. -/
theorem C2_move_rotation_normalized_witness :
    WF demoBoard ∧ movePre demoBoard Dir.up = moveSpec demoBoard Dir.up :=
  ⟨WF_demoBoard, C2_move_rotation_normalized demoBoard Dir.up WF_demoBoard⟩

/-- C4: when the slid-and-rotated board equals the input board, the move
is a silent no-op — no spawn, no score change, no terminal check, state
unchanged; in particular the row `[2,0,0,0]` slides to itself with score
delta 0. -/
theorem C4_noop_move :
    (∀ (s : GameState) (d : Dir) (pick : Nat) (four : Bool),
      (movePre s.board d).1 = s.board → moveStep s d pick four = s) ∧
    slideRowLeft [2, 0, 0, 0] = ([2, 0, 0, 0], 0) := by
  constructor
  · intro s d pick four h
    unfold moveStep
    by_cases hg : s.gameOver
    · rw [if_pos hg]
    · rw [if_neg hg, if_neg (not_not.mpr h)]
  · rw [slideRowLeft_eq]
    decide

/-- Witness for C4 at a concrete state whose board does not move left. -/
theorem C4_noop_move_witness :
    (movePre (GameState.mk noopBoard 7 false).board Dir.left).1
        = (GameState.mk noopBoard 7 false).board ∧
      moveStep (GameState.mk noopBoard 7 false) Dir.left 3 true
        = GameState.mk noopBoard 7 false :=
  ⟨noop_unchanged, C4_noop_move.1 (GameState.mk noopBoard 7 false) Dir.left 3 true noop_unchanged⟩

/-- C7: the score is monotonically non-decreasing over any sequence of
moves, and the final score is the initial score plus the sum of the
score deltas of the state-changing moves (no-op moves contribute zero). -/
theorem C7_score_accounting (s : GameState) (ms : List (Dir × Nat × Bool)) :
    (runMoves s ms).score = s.score + sumDeltas s ms ∧ s.score ≤ (runMoves s ms).score := by
  have key : ∀ (t : List (Dir × Nat × Bool)) (u : GameState),
      (runMoves u t).score = u.score + sumDeltas u t := by
    intro t
    induction t with
    | nil =>
      intro u
      simp [runMoves, sumDeltas]
    | cons m t ih =>
      intro u
      have hstep : (moveStep u m.1 m.2.1 m.2.2).score = u.score + stepDelta u m.1 := by
        unfold moveStep stepDelta
        by_cases hg : u.gameOver
        · rw [if_pos hg, if_pos hg]
          omega
        · rw [if_neg hg, if_neg hg]
          by_cases hc : (movePre u.board m.1).1 ≠ u.board
          · rw [if_pos hc, if_pos hc]
          · rw [if_neg hc, if_neg hc]
            omega
      show (runMoves (moveStep u m.1 m.2.1 m.2.2) t).score = _
      rw [ih, hstep, sumDeltas]
      omega
  refine ⟨key ms s, ?_⟩
  rw [key ms s]
  omega

/-- C9: rotating any 4×4 grid four times returns the original grid. -/
theorem C9_rotate_four_identity (bd : Board) (h : shapeWF bd) :
    rotateBoard (rotateBoard (rotateBoard (rotateBoard bd))) = bd :=
  rotateBoard_four bd h

/-- Witness for C9 at a concrete board. -/
theorem C9_rotate_four_identity_witness :
    shapeWF fullB ∧ rotateBoard (rotateBoard (rotateBoard (rotateBoard fullB))) = fullB :=
  ⟨shapeWF_fullB, C9_rotate_four_identity fullB shapeWF_fullB⟩

/-- C10: on a grid with no empty cell, `addRandomTile` returns its input
unchanged. -/
theorem C10_addRandomTile_full_noop (bd : Board) (pick : Nat) (four : Bool)
    (h : ∀ i j, i < GRID_SIZE → j < GRID_SIZE → getCell bd i j ≠ 0) :
    addRandomTile bd pick four = bd :=
  addRandomTile_full bd pick four ((emptyCells_nil bd).mpr h)

/-- Witness for C10 on a concrete full board. -/
theorem C10_addRandomTile_full_noop_witness :
    (∀ i j, i < GRID_SIZE → j < GRID_SIZE → getCell fullB i j ≠ 0) ∧
      addRandomTile fullB 11 true = fullB :=
  ⟨fullB_full, C10_addRandomTile_full_noop fullB 11 true fullB_full⟩

theorem isGameOver_iff (bd : Board) :
    isGameOver bd = true ↔
      ((∀ i j, i < GRID_SIZE → j < GRID_SIZE → getCell bd i j ≠ 0) ∧
       (∀ i j, i + 1 < GRID_SIZE → j < GRID_SIZE → getCell bd i j ≠ getCell bd (i + 1) j) ∧
       (∀ i j, i < GRID_SIZE → j + 1 < GRID_SIZE → getCell bd i j ≠ getCell bd i (j + 1))) := by
  unfold isGameOver
  simp only [List.all_eq_true, List.mem_range, Bool.and_eq_true, Bool.not_eq_true',
    beq_eq_false_iff_ne, ne_eq, Bool.and_eq_false_iff, decide_eq_false_iff_not, GRID_SIZE]
  constructor
  · intro h
    refine ⟨?_, ?_, ?_⟩
    · intro i j hi hj
      exact (h i hi j hj).1.1
    · intro i j hi hj
      rcases (h i (by omega) j hj).1.2 with h1 | h1
      · omega
      · exact h1
    · intro i j hi hj
      rcases (h i hi j (by omega)).2 with h1 | h1
      · omega
      · exact h1
  · rintro ⟨h1, h2, h3⟩ i hi j hj
    refine ⟨⟨h1 i j hi hj, ?_⟩, ?_⟩
    · by_cases hlt : i < 3
      · exact Or.inr (h2 i j (by omega) hj)
      · exact Or.inl (by omega)
    · by_cases hlt : j < 3
      · exact Or.inr (h3 i j hi (by omega))
      · exact Or.inl (by omega)

/-- C5: `isGameOver` is true exactly when every cell is non-zero and no
two horizontally- or vertically-adjacent cells are equal; it is true on
the full board `fullB` with no adjacent equal pair, and false once any
one of its cells is zeroed. -/
theorem C5_isGameOver_characterization :
    (∀ bd : Board, isGameOver bd = true ↔
      ((∀ i j, i < GRID_SIZE → j < GRID_SIZE → getCell bd i j ≠ 0) ∧
       (∀ i j, i + 1 < GRID_SIZE → j < GRID_SIZE → getCell bd i j ≠ getCell bd (i + 1) j) ∧
       (∀ i j, i < GRID_SIZE → j + 1 < GRID_SIZE → getCell bd i j ≠ getCell bd i (j + 1)))) ∧
    isGameOver fullB = true ∧
    (∀ i j, i < GRID_SIZE → j < GRID_SIZE → isGameOver (setCell fullB i j 0) = false) := by
  refine ⟨isGameOver_iff, by decide, ?_⟩
  intro i j hi hj
  simp only [GRID_SIZE] at hi hj
  interval_cases i <;> interval_cases j <;> decide

/-- Witness for C5: zeroing one cell of the full board. -/
theorem C5_isGameOver_characterization_witness :
    isGameOver (setCell fullB 2 2 0) = false :=
  C5_isGameOver_characterization.2.2 2 2 (by decide) (by decide)

/-- C3: a state-changing move spawns exactly one tile of value 2 or 4 on
a cell that was empty after the slide, and the resulting non-zero cell
count is the count before the move, minus the number of merged pairs,
plus one. -/
theorem C3_successful_move_spawn (bd : Board) (d : Dir) (pick : Nat) (four : Bool)
    (hwf : WF bd) (hch : (movePre bd d).1 ≠ bd) :
    ∃ i j, i < GRID_SIZE ∧ j < GRID_SIZE ∧ getCell (movePre bd d).1 i j = 0 ∧
      moveBoard bd d pick four = setCell (movePre bd d).1 i j (if four then 4 else 2) ∧
      ((if four then (4 : Nat) else 2) = 2 ∨ (if four then (4 : Nat) else 2) = 4) ∧
      nonzeroCount (moveBoard bd d pick four)
        = nonzeroCount bd - mergedPairsCount bd d + 1 := by
  have hemp := movePre_changed_empty bd d hwf hch
  obtain ⟨i, j, hi, hj, h0, hset⟩ := addRandomTile_spawn (movePre bd d).1 pick four hemp
  have hmb : moveBoard bd d pick four = addRandomTile (movePre bd d).1 pick four := by
    unfold moveBoard
    rw [if_pos hch]
  have hwf2 := movePre_wf bd d hwf
  have hvne : (if four then (4 : Nat) else 2) ≠ 0 := by cases four <;> decide
  have hcnt := setCell_nonzeroCount _ (wf_shape _ hwf2) i j _ hi hj h0 hvne
  have hnz := movePre_nonzero bd d (wf_shape bd hwf)
  refine ⟨i, j, hi, hj, h0, by rw [hmb, hset], by cases four <;> simp, ?_⟩
  rw [hmb, hset, hcnt]
  omega

/-- Witness for C3 at a concrete changed move. -/
theorem C3_successful_move_spawn_witness :
    WF demoBoard ∧ (movePre demoBoard Dir.left).1 ≠ demoBoard ∧
      (∃ i j, i < GRID_SIZE ∧ j < GRID_SIZE ∧
        getCell (movePre demoBoard Dir.left).1 i j = 0 ∧
        moveBoard demoBoard Dir.left 0 false
          = setCell (movePre demoBoard Dir.left).1 i j (if false then 4 else 2) ∧
        ((if false then (4 : Nat) else 2) = 2 ∨ (if false then (4 : Nat) else 2) = 4) ∧
        nonzeroCount (moveBoard demoBoard Dir.left 0 false)
          = nonzeroCount demoBoard - mergedPairsCount demoBoard Dir.left + 1) :=
  ⟨WF_demoBoard, demo_changed,
   C3_successful_move_spawn demoBoard Dir.left 0 false WF_demoBoard demo_changed⟩

/-- C6: the keyboard handler inverts the vertical axis (ArrowUp calls
`move 'down'`, ArrowDown calls `move 'up'`, horizontals map identically,
other keys dispatch nothing), while the touch handler uses the gesture's
own vertical label (an upward swipe calls `move 'up'`, a downward swipe
`move 'down'`), so the two input paths disagree on the vertical axis. -/
theorem C6_input_direction_mapping :
    keyToMove "ArrowUp" = some Dir.down ∧
    keyToMove "ArrowDown" = some Dir.up ∧
    keyToMove "ArrowLeft" = some Dir.left ∧
    keyToMove "ArrowRight" = some Dir.right ∧
    (∀ k : String, k ≠ "ArrowUp" → k ≠ "ArrowDown" → k ≠ "ArrowLeft" → k ≠ "ArrowRight" →
      keyToMove k = none) ∧
    (∀ dx dy : Int, 30 < max dx.natAbs dy.natAbs → ¬ dy.natAbs < dx.natAbs → dy < 0 →
      touchToMove dx dy = some Dir.up) ∧
    (∀ dx dy : Int, 30 < max dx.natAbs dy.natAbs → ¬ dy.natAbs < dx.natAbs → 0 < dy →
      touchToMove dx dy = some Dir.down) := by
  refine ⟨rfl, rfl, rfl, rfl, ?_, ?_, ?_⟩
  · intro k h1 h2 h3 h4
    unfold keyToMove
    rw [if_neg h1, if_neg h2, if_neg h3, if_neg h4]
  · intro dx dy h30 hv hneg
    unfold touchToMove
    rw [if_pos h30, if_neg hv, if_neg (by omega)]
  · intro dx dy h30 hv hpos
    unfold touchToMove
    rw [if_pos h30, if_neg hv, if_pos hpos]

/-- Witness for C6 at concrete key and swipe inputs. -/
theorem C6_input_direction_mapping_witness :
    keyToMove "a" = none ∧ touchToMove 0 (-31) = some Dir.up ∧
      touchToMove 5 31 = some Dir.down :=
  ⟨C6_input_direction_mapping.2.2.2.2.1 "a" (by decide) (by decide) (by decide) (by decide),
   C6_input_direction_mapping.2.2.2.2.2.1 0 (-31) (by decide) (by decide) (by decide),
   C6_input_direction_mapping.2.2.2.2.2.2 5 31 (by decide) (by decide) (by decide)⟩

/-- C8: well-formedness (a 4×4 grid whose cells are 0 or a power of two
at least 2) holds for the initial board and is preserved by every
operation: row slide, rotation, tile spawn, and the whole move. -/
theorem C8_wellformed_invariant :
    (∀ (p1 : Nat) (f1 : Bool) (p2 : Nat) (f2 : Bool), WF (initBoard p1 f1 p2 f2)) ∧
    (∀ r, wfRow r → wfRow (slideRowLeft r).1) ∧
    (∀ bd, WF bd → WF (rotateBoard bd)) ∧
    (∀ bd pick four, WF bd → WF (addRandomTile bd pick four)) ∧
    (∀ bd d, WF bd → WF (movePre bd d).1) ∧
    (∀ bd d pick four, WF bd → WF (moveBoard bd d pick four)) := by
  refine ⟨?_, wfRow_slide, rotateBoard_wf, ?_, movePre_wf, ?_⟩
  · intro p1 f1 p2 f2
    exact addRandomTile_wf _ (addRandomTile_wf _ WF_empty p1 f1) p2 f2
  · intro bd pick four h
    exact addRandomTile_wf bd h pick four
  · intro bd d pick four h
    unfold moveBoard
    by_cases hc : (movePre bd d).1 ≠ bd
    · rw [if_pos hc]
      exact addRandomTile_wf _ (movePre_wf bd d h) pick four
    · rw [if_neg hc]
      exact h

/-- Witness for C8 at concrete boards and rows. -/
theorem C8_wellformed_invariant_witness :
    WF (initBoard 0 false 1 true) ∧
    (wfRow [2, 0, 0, 0] ∧ wfRow (slideRowLeft [2, 0, 0, 0]).1) ∧
    (WF demoBoard ∧ WF (rotateBoard demoBoard)) ∧
    WF (addRandomTile demoBoard 2 true) ∧
    WF (movePre demoBoard Dir.down).1 ∧
    WF (moveBoard demoBoard Dir.down 1 false) :=
  ⟨C8_wellformed_invariant.1 0 false 1 true,
   ⟨wfRow_demo, C8_wellformed_invariant.2.1 _ wfRow_demo⟩,
   ⟨WF_demoBoard, C8_wellformed_invariant.2.2.1 _ WF_demoBoard⟩,
   C8_wellformed_invariant.2.2.2.1 _ 2 true WF_demoBoard,
   C8_wellformed_invariant.2.2.2.2.1 _ Dir.down WF_demoBoard,
   C8_wellformed_invariant.2.2.2.2.2 _ Dir.down 1 false WF_demoBoard⟩

end Game2048
